import Mathlib

/-!
Verification development for the pipe-drop puzzle engine
(`src/game/boardModel.ts`, `src/game/pieces.ts`, `src/game/rng.ts`).

The TypeScript source is shallowly embedded: the mutable `BoardModel`
becomes explicit state passing over `BoardState`, the grid is a total
function `Int → Int → Option Tile` (out-of-bounds cells are only ever
read through bounds-checked accessors, as in the source), JS numbers
used as 32-bit RNG state become `Nat` with explicit `% 2^32`, JS floats
in the weighted picker are carried as exact scaled integers (every
weight table in the repository is integral, and the drawn value is an
integer multiple of `2^-32`), and the `while (true)` resolve loop becomes a
fuel-indexed recursion `resolveAllFuel` whose theorems are stated for
every fuel value. A thrown exception (`pickWeighted` with non-positive
total) is `Option.none`.
-/

namespace PipePuzzle

/-! ## Piece catalog (src/game/pieces.ts) -/

inductive PieceId
| I2 | L2 | T3 | X4 | STOP1 | ARROW
deriving DecidableEq, Repr

inductive TileKind
| PIPE | ARROW
deriving DecidableEq, Repr

/-- Direction bits, bit order U R D L as in `DirBit`. -/
def DirU : Nat := 1
def DirR : Nat := 2
def DirD : Nat := 4
def DirL : Nat := 8

/-- `ALL_DIRS` from the source, in the same order. -/
def ALL_DIRS : List Nat := [DirU, DirR, DirD, DirL]

/-- `OPPOSITE` from the source. -/
def OPPOSITE (d : Nat) : Nat :=
  if d = DirU then DirD else if d = DirR then DirL
  else if d = DirD then DirU else if d = DirL then DirR else 0

/-- `DIR_OFFSET` from the source: unit grid delta `(dx, dy)`. -/
def dirOff (d : Nat) : Int × Int :=
  if d = DirU then (0, -1) else if d = DirR then (1, 0)
  else if d = DirD then (0, 1) else if d = DirL then (-1, 0) else (0, 0)

/-- `hasBit` from the source. -/
def hasBit (mask bit : Nat) : Bool := mask &&& bit ≠ 0

/-- One clockwise quarter-turn of a 4-bit mask (the body of the
`rotateMask` loop: U→R, R→D, D→L, L→U). -/
def rotStep (m : Nat) : Nat :=
  (if m &&& DirU ≠ 0 then DirR else 0) |||
  (if m &&& DirR ≠ 0 then DirD else 0) |||
  (if m &&& DirD ≠ 0 then DirL else 0) |||
  (if m &&& DirL ≠ 0 then DirU else 0)

/-- `rotateMask` from the source: apply `rotStep` `rot` times to `mask & 0b1111`. -/
def rotateMask (mask rot : Nat) : Nat := rotStep^[rot] (mask &&& 15)

/-- `PIECE_DEFS[id].baseMask`. -/
def pieceBase : PieceId → Nat
| .I2 => DirU ||| DirD
| .L2 => DirU ||| DirR
| .T3 => DirL ||| DirR ||| DirD
| .X4 => DirU ||| DirR ||| DirD ||| DirL
| .STOP1 => DirU
| .ARROW => DirR

/-- `PIECE_DEFS[id].kind`. -/
def pieceKind : PieceId → TileKind
| .ARROW => TileKind.ARROW
| _ => TileKind.PIPE

/-- `pieceMask(pieceId, rot)`. -/
def pieceMask (pid : PieceId) (rot : Nat) : Nat := rotateMask (pieceBase pid) rot

/-- `rotCW` from the source. -/
def rotCW (rot : Nat) : Nat := (rot + 1) % 4

/-! ## Data model (src/game/boardModel.ts) -/

structure Tile where
  kind : TileKind
  pieceId : PieceId
  rot : Nat
deriving DecidableEq, Repr

structure Pos where
  x : Int
  y : Int
deriving DecidableEq, Repr

/-- Effective connectivity mask of a tile (`pieceMask(t.pieceId, t.rot)`). -/
def tileMask (t : Tile) : Nat := pieceMask t.pieceId t.rot

structure WaterCell where
  x : Int
  y : Int
  dist : Nat
deriving DecidableEq, Repr

/-- A `{from, to, tile}` move record. -/
structure MoveRec where
  fromPos : Pos
  toPos : Pos
  tile : Tile
deriving DecidableEq, Repr

inductive ResolveStep
| WATER (cells : List WaterCell)
| CLEAR (cells : List Pos)
| DROP (moves : List MoveRec)
| SHIFT (moves : List MoveRec)
| FLOW_COUNT (delta : Int)
deriving DecidableEq, Repr

def isClearStep : ResolveStep → Bool
| .CLEAR _ => true
| _ => false

def isFlowCountStep : ResolveStep → Bool
| .FLOW_COUNT _ => true
| _ => false

inductive FaucetMode
| ANY_EDGE | MASKED | SINGLE
deriving DecidableEq, Repr

/-- An `"ALL" | number[]` row selector. -/
inductive RowSel
| ALL
| listed (rows : List Int)
deriving DecidableEq, Repr

structure Faucets where
  mode : FaucetMode
  leftRows : RowSel
  rightRows : RowSel
deriving DecidableEq, Repr

structure Deck where
  enabledPieces : PieceId → Bool
  weights : PieceId → Int
  seed : Option Int

structure InitialFill where
  rowsFromBottom : Int
  useInitialWeights : Bool
  initialWeights : PieceId → Option Int

structure StageConfig where
  width : Nat
  height : Nat
  faucets : Faucets
  deck : Deck
  initialFill : Option InitialFill
  waterFlowsToClear : Nat

/-- The grid: `grid[y][x]`, accessed here as `g x y`. -/
def Grid : Type := Int → Int → Option Tile

structure BoardState where
  grid : Grid
  rng : Nat
  waterFlows : Nat

/-! ## Deterministic RNG (src/game/rng.ts) -/

/-- One `xorshift32` step on the 32-bit state; the new state is also the
value `nextU32()` returns. -/
def nextU32 (x : Nat) : Nat :=
  let x1 := (x ^^^ (x <<< 13)) % 4294967296
  let x2 := x1 ^^^ (x1 >>> 17)
  (x2 ^^^ (x2 <<< 5)) % 4294967296

/-- `nextInt(maxExclusive)`: `Math.floor(nextFloat01() * m)` computed
exactly; returns `(value, new state)`. -/
def nextInt (st m : Nat) : Nat × Nat :=
  let x := nextU32 st
  ((x * m) / 4294967296, x)

/-- The fixed key order of the stage weight records
(`Object.keys(weights)` insertion order, as written in stage_001 and in
`buildInitialWeights`). Weights are modelled as integers: every weight
table in the repository is integral, and for such tables the source's
float arithmetic is exact. The running value `r = nextFloat01() * total`
is an integer multiple of `2^-32`; the scan below carries it scaled by
`2^32` (so `r` itself is `rScaled / 2^32`), which keeps every comparison
exact and the whole picker computable by the kernel. -/
def pieceKeys : List PieceId := [.I2, .L2, .T3, .X4, .STOP1, .ARROW]

/-- Contribution of one entry to the filtered positive-weight total. -/
def posW (w : PieceId → Int) (en : PieceId → Bool) (k : PieceId) : Int :=
  if en k = false then 0 else if 0 < w k then w k else 0

/-- The `total` accumulated by `pickWeighted` over a key list. -/
def sumPosL (w : PieceId → Int) (en : PieceId → Bool) (l : List PieceId) : Int :=
  (l.map (posW w en)).sum

/-- `total` over all keys. -/
def sumPos (w : PieceId → Int) (en : PieceId → Bool) : Int := sumPosL w en pieceKeys

/-- The selection scan of `pickWeighted`: skip filtered or non-positive
entries, subtract each weight from `r`, return the key that drives `r`
negative. `r` is scaled by `2^32`, so each weight is subtracted as
`w k * 2^32`. -/
def scanPick (w : PieceId → Int) (en : PieceId → Bool) : Int → List PieceId → Option PieceId
| _, [] => none
| r, k :: ks =>
  if en k = false then scanPick w en r ks
  else if w k ≤ 0 then scanPick w en r ks
  else if r - w k * 4294967296 < 0 then some k
  else scanPick w en (r - w k * 4294967296) ks

/-- `pickWeighted(weights, enabled)`: `none` models the thrown
configuration error when the filtered positive total is ≤ 0. The drawn
value is `r = x / 2^32 * total`, carried scaled as `x * total`. -/
def pickWeighted (st : Nat) (w : PieceId → Int) (en : PieceId → Bool) :
    Option (PieceId × Nat) :=
  let total := sumPos w en
  if total ≤ 0 then none
  else
    let x := nextU32 st
    let rScaled : Int := (x : Int) * total
    match scanPick w en rScaled pieceKeys with
    | some k => some (k, x)
    | none =>
      match pieceKeys.find? (fun k => en k) with
      | some k => some (k, x)
      | none => none

/-- Draw a piece id and a rotation, building a tile as the spawner,
initial fill and refill all do. -/
def rollTile (st : Nat) (w : PieceId → Int) (en : PieceId → Bool) :
    Option (Tile × Nat) :=
  match pickWeighted st w en with
  | none => none
  | some (pid, st1) =>
    let (rot, st2) := nextInt st1 4
    some ({ kind := pieceKind pid, pieceId := pid, rot := rot }, st2)

/-! ## Grid state and mutators -/

/-- `inBounds(x, y)`. -/
def inBounds (cfg : StageConfig) (x y : Int) : Bool :=
  0 ≤ x && x < (cfg.width : Int) && 0 ≤ y && y < (cfg.height : Int)

/-- `getCell(x, y)`: bounds-checked read returning absent out of range. -/
def getCell (cfg : StageConfig) (g : Grid) (x y : Int) : Option Tile :=
  if inBounds cfg x y then g x y else none

/-- Point update of the grid function (an assignment `grid[y][x] = v`). -/
def setCell (g : Grid) (x y : Int) (v : Option Tile) : Grid :=
  fun a b => if a = x && b = y then v else g a b

/-- `clearCells(cells)`: null out each in-bounds listed cell. -/
def clearCells (cfg : StageConfig) (g : Grid) (cells : List Pos) : Grid :=
  cells.foldl (fun gg c => if inBounds cfg c.x c.y then setCell gg c.x c.y none else gg) g

/-- `rotateCellCW(x, y)`: advance a present tile's rotation, no-op otherwise. -/
def rotateCellCW (cfg : StageConfig) (g : Grid) (x y : Int) : Grid :=
  match getCell cfg g x y with
  | none => g
  | some t => setCell g x y (some { t with rot := rotCW t.rot })

/-- `swapCells(a, b)`: exchange two cells, no-op if equal or out of range. -/
def swapCells (cfg : StageConfig) (g : Grid) (a b : Pos) : Grid :=
  if a.x = b.x ∧ a.y = b.y then g
  else if ¬ inBounds cfg a.x a.y then g
  else if ¬ inBounds cfg b.x b.y then g
  else
    let tmp := g a.x a.y
    setCell (setCell g a.x a.y (g b.x b.y)) b.x b.y tmp

/-- The `tiles` array of `shiftAlongPath` together with its
`tiles.some(t => t === null)` guard: the tile at every path cell, or
`none` if any path cell is empty. -/
def seqTiles (g : Grid) : List Pos → Option (List Tile)
| [] => some []
| p :: ps =>
  match g p.x p.y with
  | none => none
  | some t => (seqTiles g ps).map (fun ts => t :: ts)

/-- `shiftAlongPath(path)`: returns the move records and the updated grid. -/
def shiftAlongPath (cfg : StageConfig) (g : Grid) (path : List Pos) :
    List MoveRec × Grid :=
  if path.length < 2 then ([], g)
  else if ¬ (path.all (fun p => inBounds cfg p.x p.y)) then ([], g)
  else
    match seqTiles g path with
    | none => ([], g)
    | some ts =>
      let rotT := ts.drop 1 ++ ts.take 1
      let rotP := path.drop 1 ++ path.take 1
      let moves := (path.zip (rotP.zip rotT)).map
        (fun m => { fromPos := m.2.1, toPos := m.1, tile := m.2.2 : MoveRec })
      (moves, moves.foldl (fun gg mv => setCell gg mv.toPos.x mv.toPos.y (some mv.tile)) g)

/-- The per-column descent of `applyGravity`: walk `y` from the bottom up,
compacting occupied cells down to `writeY`. -/
def gravityCol (cfg : StageConfig) (x : Int) (g : Grid) : Grid × List MoveRec :=
  let ys : List Int := ((List.range cfg.height).reverse.map (fun n : Nat => (n : Int)))
  let r := ys.foldl
    (fun (acc : Grid × Int × List MoveRec) y =>
      let g0 := acc.1
      let writeY := acc.2.1
      let ms := acc.2.2
      match g0 x y with
      | none => (g0, writeY, ms)
      | some t =>
        if y ≠ writeY then
          (setCell (setCell g0 x writeY (some t)) x y none, writeY - 1,
            ms ++ [{ fromPos := ⟨x, y⟩, toPos := ⟨x, writeY⟩, tile := t }])
        else (g0, writeY - 1, ms))
    (g, (cfg.height : Int) - 1, [])
  (r.1, r.2.2)

/-- `applyGravity()`: per column, in ascending column order. -/
def applyGravity (cfg : StageConfig) (g : Grid) : Grid × List MoveRec :=
  ((List.range cfg.width).map (fun n : Nat => (n : Int))).foldl
    (fun (acc : Grid × List MoveRec) x =>
      let r := gravityCol cfg x acc.1
      (r.1, acc.2 ++ r.2))
    (g, [])

/-- The cell scan order of `refillFromTop`: `x` outer ascending, `y` inner
ascending. -/
def refillCoords (cfg : StageConfig) : List Pos :=
  ((List.range cfg.width).map (fun n : Nat => (n : Int))).flatMap
    (fun x => ((List.range cfg.height).map (fun n : Nat => (n : Int))).map (fun y => ⟨x, y⟩))

/-- The body of `refillFromTop` over a coordinate list: fill each empty
cell with a freshly rolled tile, recording a move from off-grid row -1. -/
def refillGo (cfg : StageConfig) :
    List Pos → Grid → Nat → List MoveRec → Option (Grid × Nat × List MoveRec)
| [], g, rng, ms => some (g, rng, ms)
| c :: cs, g, rng, ms =>
  if (g c.x c.y).isSome then refillGo cfg cs g rng ms
  else
    match rollTile rng cfg.deck.weights cfg.deck.enabledPieces with
    | none => none
    | some (t, rng') =>
      refillGo cfg cs (setCell g c.x c.y (some t)) rng'
        (ms ++ [{ fromPos := ⟨c.x, -1⟩, toPos := c, tile := t }])

/-- `refillFromTop()`; `none` models the thrown configuration error. -/
def refillFromTop (cfg : StageConfig) (g : Grid) (rng : Nat) :
    Option (Grid × Nat × List MoveRec) :=
  refillGo cfg (refillCoords cfg) g rng []

/-! ## Water logic -/

/-- Row enablement shared by `isLeftRowEnabled` / `isRightRowEnabled`. -/
def rowEnabled (mode : FaucetMode) (sel : RowSel) (y : Int) : Bool :=
  if mode = FaucetMode.ANY_EDGE then true
  else match sel with
    | RowSel.ALL => true
    | RowSel.listed rows => rows.contains y

def isLeftRowEnabled (cfg : StageConfig) (y : Int) : Bool :=
  rowEnabled cfg.faucets.mode cfg.faucets.leftRows y

def isRightRowEnabled (cfg : StageConfig) (y : Int) : Bool :=
  rowEnabled cfg.faucets.mode cfg.faucets.rightRows y

/-- Expansion step of the BFS in `collectNetworkFromStart`: try all four
directions from `cur`, appending newly visited cells to the visited list
(which doubles as the insertion-ordered `Set`) and the queue. -/
def bfsExpand (cfg : StageConfig) (g : Grid) (curMask : Nat) (cur : Pos)
    (vq : List Pos × List Pos) : List Pos × List Pos :=
  ALL_DIRS.foldl
    (fun (acc : List Pos × List Pos) dir =>
      if ¬ hasBit curMask dir then acc
      else
        let nx := cur.x + (dirOff dir).1
        let ny := cur.y + (dirOff dir).2
        if ¬ inBounds cfg nx ny then acc
        else match g nx ny with
          | none => acc
          | some nt =>
            if ¬ hasBit (tileMask nt) (OPPOSITE dir) then acc
            else if acc.1.contains ⟨nx, ny⟩ then acc
            else (acc.1 ++ [⟨nx, ny⟩], acc.2 ++ [⟨nx, ny⟩]))
    vq

/-- The BFS work loop, fueled; the fuel passed by `collectNetworkFromStart`
strictly exceeds the number of grid cells, so it never runs out. -/
def bfsLoop (cfg : StageConfig) (g : Grid) : Nat → List Pos → List Pos → List Pos
| 0, visited, _ => visited
| _ + 1, visited, [] => visited
| fuel + 1, visited, cur :: qs =>
  let curMask := (g cur.x cur.y).elim 0 tileMask
  let vq := bfsExpand cfg g curMask cur (visited, qs)
  bfsLoop cfg g fuel vq.1 vq.2

/-- `collectNetworkFromStart(startY)`: seed at the left-column cell of
`startY` if it opens Left, then flood fill. -/
def collectNetworkFromStart (cfg : StageConfig) (g : Grid) (startY : Int) : List Pos :=
  match g 0 startY with
  | none => []
  | some t0 =>
    if ¬ hasBit (tileMask t0) DirL then []
    else bfsLoop cfg g (cfg.width * cfg.height + 1) [⟨0, startY⟩] [⟨0, startY⟩]

/-- `networkReachesRight(network)`. -/
def networkReachesRight (cfg : StageConfig) (g : Grid) (network : List Pos) : Bool :=
  network.any (fun p =>
    if p.x ≠ (cfg.width : Int) - 1 then false
    else match g p.x p.y with
      | none => false
      | some t => hasBit (tileMask t) DirR)

/-- One connector check of `checkNetworkValid`. -/
def connectorOk (cfg : StageConfig) (g : Grid) (network : List Pos)
    (x y : Int) (m : Nat) (dir : Nat) : Bool :=
  if ¬ hasBit m dir then true
  else
    let nx := x + (dirOff dir).1
    let ny := y + (dirOff dir).2
    if ¬ inBounds cfg nx ny then
      (x = 0 && dir = DirL && isLeftRowEnabled cfg y) ||
      (x = (cfg.width : Int) - 1 && dir = DirR && isRightRowEnabled cfg y)
    else match g nx ny with
      | none => false
      | some nt => hasBit (tileMask nt) (OPPOSITE dir) && network.contains ⟨nx, ny⟩

/-- `checkNetworkValid(network)` as a boolean (`ok`); the diagnostic
reason string is dropped. -/
def checkNetworkValid (cfg : StageConfig) (g : Grid) (network : List Pos) : Bool :=
  network.all (fun p =>
    match g p.x p.y with
    | none => false
    | some t => ALL_DIRS.all (connectorOk cfg g network p.x p.y (tileMask t)))

/-! ## Resolve loop -/

/-- The per-inlet guards of the resolve loop body: enabled row, non-empty
network, reaches the drain, passes the validator. -/
def tryInlet (cfg : StageConfig) (st : BoardState) (startY : Int) : Option (List Pos) :=
  if ¬ isLeftRowEnabled cfg startY then none
  else
    let network := collectNetworkFromStart cfg st.grid startY
    if network.isEmpty then none
    else if ¬ networkReachesRight cfg st.grid network then none
    else if ¬ checkNetworkValid cfg st.grid network then none
    else some network

/-- The ascending inlet scan: first inlet row yielding a clearable
network wins. -/
def findInlet (cfg : StageConfig) (st : BoardState) : List Int → Option (List Pos)
| [] => none
| y :: ys =>
  match tryInlet cfg st y with
  | some network => some network
  | none => findInlet cfg st ys

/-- The inlet rows scanned each pass: `startY = 0 .. height-1`. -/
def inletRows (cfg : StageConfig) : List Int :=
  (List.range cfg.height).map (fun n : Nat => (n : Int))

/-- Clearing one validated network: emit WATER (every cell with
`dist: 0`, exactly as the source writes it), CLEAR, FLOW_COUNT{+1}, then
gravity and refill DROP steps when non-empty. -/
def doClear (cfg : StageConfig) (st : BoardState) (network : List Pos) :
    Option (List ResolveStep × BoardState) :=
  let cells := network
  let waterCells := cells.map (fun c => { x := c.x, y := c.y, dist := 0 : WaterCell })
  let g1 := clearCells cfg st.grid cells
  let gr := applyGravity cfg g1
  match refillFromTop cfg gr.1 st.rng with
  | none => none
  | some (g3, rng', rmoves) =>
    some ([ResolveStep.WATER waterCells, ResolveStep.CLEAR cells,
           ResolveStep.FLOW_COUNT 1]
          ++ (if gr.2.isEmpty then [] else [ResolveStep.DROP gr.2])
          ++ (if rmoves.isEmpty then [] else [ResolveStep.DROP rmoves]),
          { grid := g3, rng := rng', waterFlows := st.waterFlows + 1 })

/-- Outcome of one pass of the `while (true)` loop. -/
inductive PassOut
| err
| settled
| cleared (steps : List ResolveStep) (st : BoardState)

/-- One pass of the resolve loop: scan inlets ascending; if none clears,
the loop settles. -/
def resolvePass (cfg : StageConfig) (st : BoardState) : PassOut :=
  match findInlet cfg st (inletRows cfg) with
  | none => PassOut.settled
  | some network =>
    match doClear cfg st network with
    | none => PassOut.err
    | some (steps, st') => PassOut.cleared steps st'

/-- `resolveAll()`, fuel-indexed: the source loop has no pass cap, so the
embedding recurses on fuel; every theorem below is stated for all fuel
values, hence holds of every terminating run of the source loop.
`none` models the configuration-error throw escaping `resolveAll`. -/
def resolveAllFuel (cfg : StageConfig) : Nat → BoardState → Option (List ResolveStep × Nat × BoardState)
| 0, st => some ([], 0, st)
| fuel + 1, st =>
  match resolvePass cfg st with
  | PassOut.err => none
  | PassOut.settled => some ([], 0, st)
  | PassOut.cleared steps st' =>
    (resolveAllFuel cfg fuel st').map (fun r => (steps ++ r.1, r.2.1 + 1, r.2.2))

/-- The observable `ResolveResult` of `resolveAll()`: the step list and
`flowsGained`. -/
def resolveOut (cfg : StageConfig) (fuel : Nat) (st : BoardState) :
    Option (List ResolveStep × Nat) :=
  (resolveAllFuel cfg fuel st).map (fun r => (r.1, r.2.1))

/-- The board state after `resolveAll()` (unchanged if the run threw). -/
def finalState (cfg : StageConfig) (fuel : Nat) (st : BoardState) : BoardState :=
  match resolveAllFuel cfg fuel st with
  | none => st
  | some r => r.2.2

/-- One successful pass as a relation between states. -/
def PassStep (cfg : StageConfig) (st st' : BoardState) : Prop :=
  ∃ steps, resolvePass cfg st = PassOut.cleared steps st'

/-- Reachability by zero or more successful passes. -/
def PassReach (cfg : StageConfig) : BoardState → BoardState → Prop :=
  Relation.ReflTransGen (PassStep cfg)

/-! ## Arrow trigger -/

/-- The ray walk of `triggerArrowAt`: from `(x, y)` step by `(dx, dy)`
while in bounds, collecting every occupied cell (empty cells are skipped,
not stopped at). Fuel `width + height + 1` strictly exceeds the number of
steps any axis-aligned unit ray can stay in bounds. -/
def rayCollect (cfg : StageConfig) (g : Grid) (dx dy : Int) :
    Nat → Int → Int → List Pos
| 0, _, _ => []
| fuel + 1, x, y =>
  if inBounds cfg x y then
    (if (g x y).isSome then [(⟨x, y⟩ : Pos)] else [])
      ++ rayCollect cfg g dx dy fuel (x + dx) (y + dy)
  else []

/-- `triggerArrowAt(pos)`. -/
def triggerArrowAt (cfg : StageConfig) (st : BoardState) (pos : Pos) :
    List ResolveStep × BoardState :=
  match getCell cfg st.grid pos.x pos.y with
  | none => ([], st)
  | some tile =>
    if tile.kind ≠ TileKind.ARROW then ([], st)
    else
      let mask := tileMask tile
      match ALL_DIRS.find? (fun d => hasBit mask d) with
      | none => ([], st)
      | some dir =>
        let off := dirOff dir
        let toClear : List Pos :=
          ⟨pos.x, pos.y⟩ ::
            rayCollect cfg st.grid off.1 off.2 (cfg.width + cfg.height + 1)
              (pos.x + off.1) (pos.y + off.2)
        let g1 := clearCells cfg st.grid toClear
        let gr := applyGravity cfg g1
        ([ResolveStep.CLEAR toClear]
           ++ (if gr.2.isEmpty then [] else [ResolveStep.DROP gr.2]),
         { st with grid := gr.1 })

/-! ## Construction and call sequences -/

/-- `clampInt(n, min, max)` (the `| 0` truncation is identity on the
integral values the stages use). -/
def clampInt (n lo hi : Int) : Int := max lo (min hi n)

/-- `buildInitialWeights(override)`: the fixed base table with present
override entries applied. -/
def buildInitialWeights (override : PieceId → Option Int) : PieceId → Int :=
  fun k =>
    match override k with
    | some v => v
    | none =>
      match k with
      | .I2 => 50 | .L2 => 40 | .T3 => 10 | .X4 => 0 | .STOP1 => 0 | .ARROW => 0

/-- The cell order of `applyInitialFill`: `y` outer from `startY`, `x`
inner ascending. -/
def initCoords (cfg : StageConfig) (startY : Int) : List Pos :=
  (((List.range cfg.height).map (fun n : Nat => (n : Int))).filter (fun y => startY ≤ y)).flatMap
    (fun y => ((List.range cfg.width).map (fun n : Nat => (n : Int))).map (fun x => ⟨x, y⟩))

/-- Fill loop of `applyInitialFill` (writes unconditionally; the grid is
fresh). -/
def initFillGo (cfg : StageConfig) (w : PieceId → Int) :
    List Pos → Grid → Nat → Option (Grid × Nat)
| [], g, rng => some (g, rng)
| c :: cs, g, rng =>
  match rollTile rng w cfg.deck.enabledPieces with
  | none => none
  | some (t, rng') => initFillGo cfg w cs (setCell g c.x c.y (some t)) rng'

/-- `applyInitialFill()`. -/
def applyInitialFill (cfg : StageConfig) (g : Grid) (rng : Nat) : Option (Grid × Nat) :=
  match cfg.initialFill with
  | none => some (g, rng)
  | some fill =>
    let rows := clampInt fill.rowsFromBottom 0 (cfg.height : Int)
    if rows ≤ 0 then some (g, rng)
    else
      let startY := (cfg.height : Int) - rows
      let w := if fill.useInitialWeights then buildInitialWeights fill.initialWeights
               else cfg.deck.weights
      initFillGo cfg w (initCoords cfg startY) g rng

/-- `(seed | 0) || 0x12345678`: the 32-bit RNG state from a seed. -/
def mkRngState (s : Int) : Nat :=
  let u := (s % 4294967296).toNat
  if u = 0 then 0x12345678 else u

/-- The all-empty starting grid. -/
def emptyGrid : Grid := fun _ _ => none

/-- The `BoardModel` constructor: seed the RNG from the configuration
(or from the caller-supplied entropy when the configured seed is null),
then apply the initial fill. No automatic resolve. -/
def mkBoard (cfg : StageConfig) (entropy : Int) : Option BoardState :=
  let seed : Int :=
    match cfg.deck.seed with
    | some s => s
    | none => entropy
  match applyInitialFill cfg emptyGrid (mkRngState seed) with
  | none => none
  | some (g, rng) => some { grid := g, rng := rng, waterFlows := 0 }

/-- An externally driven engine call. -/
inductive GameCall
| rotate (x y : Int)
| swap (a b : Pos)
| resolve
deriving DecidableEq, Repr

/-- The observable output of one call: rotate/swap return nothing,
resolve returns its `ResolveResult`. -/
abbrev CallOut : Type := Option (List ResolveStep × Nat)

/-- Run one call against the engine state. -/
def applyCall (cfg : StageConfig) (fuel : Nat) (st : BoardState) :
    GameCall → Option (CallOut × BoardState)
| GameCall.rotate x y => some (none, { st with grid := rotateCellCW cfg st.grid x y })
| GameCall.swap a b => some (none, { st with grid := swapCells cfg st.grid a b })
| GameCall.resolve =>
  match resolveAllFuel cfg fuel st with
  | none => none
  | some (steps, flows, st') => some (some (steps, flows), st')

/-- Run a call sequence, collecting each call's observable output. -/
def runCalls (cfg : StageConfig) (fuel : Nat) :
    BoardState → List GameCall → Option (List CallOut)
| _, [] => some []
| st, c :: cs =>
  match applyCall cfg fuel st c with
  | none => none
  | some (out, st') => (runCalls cfg fuel st' cs).map (fun outs => out :: outs)

/-- Construct an engine from a configuration (with the given entropy for
an absent seed) and feed it a call sequence; the result is the sequence
of observable outputs. -/
def runGame (cfg : StageConfig) (entropy : Int) (fuel : Nat)
    (calls : List GameCall) : Option (List CallOut) :=
  match mkBoard cfg entropy with
  | none => none
  | some st => runCalls cfg fuel st calls

/-! ## Concrete boards used by witnesses and counterexamples -/

/-- A deck drawing only `I2` pieces (weight 1, everything enabled). -/
def deckI2 (seed : Option Int) : Deck :=
  { enabledPieces := fun _ => true
    weights := fun k => match k with | .I2 => 1 | _ => 0
    seed := seed }

/-- Width-3, height-1 stage: inlet on the left edge of row 0, drain on
the right edge of row 0 (the spec's concrete scenario board). -/
def cfg3x1 : StageConfig :=
  { width := 3, height := 1
    faucets := { mode := FaucetMode.MASKED
                 leftRows := RowSel.listed [0]
                 rightRows := RowSel.listed [0] }
    deck := deckI2 (some 1)
    initialFill := none
    waterFlowsToClear := 1 }

/-- A tile by piece and rotation. -/
def mkTile (pid : PieceId) (rot : Nat) : Tile :=
  { kind := pieceKind pid, pieceId := pid, rot := rot }

/-- Build a one-row grid from a list of optional tiles at `y = 0`. -/
def rowGrid (ts : List (Option Tile)) : Grid :=
  fun x y => if y = 0 ∧ 0 ≤ x then (ts.getD x.toNat none) else none

/-- 1×3 board whose three cells all open Left+Right (`I2` at rot 1):
a clearable straight run. -/
def stRun : BoardState :=
  { grid := rowGrid [some (mkTile .I2 1), some (mkTile .I2 1), some (mkTile .I2 1)]
    rng := 1, waterFlows := 0 }

/-- 1×3 board with masks Right / Left+Right / Left, exactly the piece
placement the spec's scenario describes (`STOP1` rot 1, `I2` rot 1,
`STOP1` rot 3). -/
def stScenario : BoardState :=
  { grid := rowGrid [some (mkTile .STOP1 1), some (mkTile .I2 1), some (mkTile .STOP1 3)]
    rng := 1, waterFlows := 0 }

/-- Width-1, height-1 stage with both edges enabled everywhere. -/
def cfg1x1 : StageConfig :=
  { width := 1, height := 1
    faucets := { mode := FaucetMode.ANY_EDGE
                 leftRows := RowSel.ALL, rightRows := RowSel.ALL }
    deck := deckI2 (some 1)
    initialFill := none
    waterFlowsToClear := 1 }

/-- Empty 1×1 board. -/
def stEmpty1 : BoardState := { grid := emptyGrid, rng := 1, waterFlows := 0 }

/-- Full 1×1 board holding an `I2` at rotation 0 (opens Up+Down; not
clearable, so resolve settles immediately). -/
def stFull1 : BoardState :=
  { grid := rowGrid [some (mkTile .I2 0)], rng := 1, waterFlows := 0 }

/-- 1×1 board holding an `I2` at rotation 1 (opens Left+Right), with the
RNG state seeded so the next two refills again produce Left+Right tiles:
three passes clear before the loop settles. -/
def stSpin : BoardState :=
  { grid := rowGrid [some (mkTile .I2 1)], rng := 20, waterFlows := 0 }

/-- Width-4, height-1 stage for the arrow trigger. -/
def cfg4x1 : StageConfig :=
  { width := 4, height := 1
    faucets := { mode := FaucetMode.ANY_EDGE
                 leftRows := RowSel.ALL, rightRows := RowSel.ALL }
    deck := deckI2 (some 1)
    initialFill := none
    waterFlowsToClear := 1 }

/-- 1×4 board: an `ARROW` pointing Right at (0,0), an empty cell at
(1,0), an occupied cell at (2,0), an empty cell at (3,0). -/
def stArrow : BoardState :=
  { grid := rowGrid [some (mkTile .ARROW 0), none, some (mkTile .I2 0), none]
    rng := 1, waterFlows := 0 }

/-- Width-2, height-1 stage for the shift operation. -/
def cfg2x1 : StageConfig :=
  { width := 2, height := 1
    faucets := { mode := FaucetMode.ANY_EDGE
                 leftRows := RowSel.ALL, rightRows := RowSel.ALL }
    deck := deckI2 (some 1)
    initialFill := none
    waterFlowsToClear := 1 }

/-- 1×2 board holding two distinct tiles. -/
def gTwo : Grid := rowGrid [some (mkTile .I2 0), some (mkTile .L2 0)]

/-- A self-intersecting drag path visiting (0,0), (1,0), (0,0). -/
def pathLoop : List Pos := [⟨0, 0⟩, ⟨1, 0⟩, ⟨0, 0⟩]

/-- A plain two-cell drag path. -/
def pathTwo : List Pos := [⟨0, 0⟩, ⟨1, 0⟩]

/-- Every in-bounds cell is occupied. -/
def gridFull (cfg : StageConfig) (g : Grid) : Bool :=
  (List.range cfg.height).all (fun j =>
    (List.range cfg.width).all (fun i => (g (i : Int) (j : Int)).isSome))

/-- The filtered positive weight accumulated by the `pickWeighted` scan
strictly before reaching key `k`. -/
def preW (w : PieceId → Int) (en : PieceId → Bool) (k : PieceId) : Int :=
  sumPosL w en (pieceKeys.takeWhile (fun j => j ≠ k))

/-- The stage_001 weight table. -/
def wStage : PieceId → Int :=
  fun k => match k with | .I2 => 45 | .L2 => 45 | .T3 => 10 | _ => 0

/-- The stage_001 enabled-piece filter. -/
def enStage : PieceId → Bool :=
  fun k => match k with | .I2 => true | .L2 => true | .T3 => true | _ => false

/-- The `ResolveResult` of one resolve pass on `stRun` (computed by the
embedding; the refill draws with RNG state 1 happen to produce `I2`
tiles at rotation 0). -/
def outRun : List ResolveStep × Nat :=
  ([ResolveStep.WATER [⟨0, 0, 0⟩, ⟨1, 0, 0⟩, ⟨2, 0, 0⟩],
    ResolveStep.CLEAR [⟨0, 0⟩, ⟨1, 0⟩, ⟨2, 0⟩],
    ResolveStep.FLOW_COUNT 1,
    ResolveStep.DROP
      [⟨⟨0, -1⟩, ⟨0, 0⟩, mkTile .I2 0⟩,
       ⟨⟨1, -1⟩, ⟨1, 0⟩, mkTile .I2 0⟩,
       ⟨⟨2, -1⟩, ⟨2, 0⟩, mkTile .I2 0⟩]], 1)

/-! ## Structure of one resolve pass -/

lemma doClear_steps_spec {cfg : StageConfig} {st : BoardState} {network : List Pos}
    {steps : List ResolveStep} {st' : BoardState}
    (h : doClear cfg st network = some (steps, st')) :
    steps.countP isClearStep = 1 ∧ steps.countP isFlowCountStep = 1 ∧
    (∀ d, ResolveStep.FLOW_COUNT d ∈ steps → d = 1) ∧
    (∀ cells, ResolveStep.CLEAR cells ∈ steps → cells = network) ∧
    (∀ wc, ResolveStep.WATER wc ∈ steps → ∀ c ∈ wc, c.dist = 0) := by
  simp only [doClear] at h
  cases hr : refillFromTop cfg (applyGravity cfg (clearCells cfg st.grid network)).1 st.rng with
  | none => rw [hr] at h; exact Option.noConfusion h
  | some r =>
    rw [hr] at h
    obtain ⟨g3, rng', rmoves⟩ := r
    simp only [Option.some.injEq, Prod.mk.injEq] at h
    obtain ⟨hsteps, _⟩ := h
    subst hsteps
    refine ⟨?_, ?_, ?_, ?_, ?_⟩
    · split_ifs <;> simp [List.countP_append, List.countP_cons, isClearStep]
    · split_ifs <;> simp [List.countP_append, List.countP_cons, isFlowCountStep]
    · intro d hd
      split_ifs at hd <;> simp_all
    · intro cells hc
      split_ifs at hc <;> simp_all
    · intro wc hw c hc
      have hwc : wc = network.map
          (fun c => ({ x := c.x, y := c.y, dist := 0 } : WaterCell)) := by
        split_ifs at hw <;> simp_all
      subst hwc
      obtain ⟨a, -, rfl⟩ := List.mem_map.mp hc
      rfl

lemma tryInlet_spec {cfg : StageConfig} {st : BoardState} {y : Int} {net : List Pos}
    (h : tryInlet cfg st y = some net) :
    networkReachesRight cfg st.grid net = true ∧
    checkNetworkValid cfg st.grid net = true := by
  simp only [tryInlet] at h
  split_ifs at h with h1 h2 h3 h4
  obtain rfl : collectNetworkFromStart cfg st.grid y = net := by simpa using h
  exact ⟨by simpa using h3, by simpa using h4⟩

lemma findInlet_spec {cfg : StageConfig} {st : BoardState} {l : List Int} {net : List Pos}
    (h : findInlet cfg st l = some net) :
    networkReachesRight cfg st.grid net = true ∧
    checkNetworkValid cfg st.grid net = true := by
  induction l with
  | nil => exact Option.noConfusion h
  | cons y ys ih =>
    unfold findInlet at h
    cases ht : tryInlet cfg st y with
    | some n =>
      rw [ht] at h
      obtain rfl : n = net := by simpa using h
      exact tryInlet_spec ht
    | none => rw [ht] at h; exact ih h

lemma resolvePass_cleared {cfg : StageConfig} {st : BoardState}
    {steps : List ResolveStep} {st' : BoardState}
    (h : resolvePass cfg st = PassOut.cleared steps st') :
    ∃ network, findInlet cfg st (inletRows cfg) = some network ∧
      doClear cfg st network = some (steps, st') := by
  unfold resolvePass at h
  cases hf : findInlet cfg st (inletRows cfg) with
  | none => rw [hf] at h; exact PassOut.noConfusion h
  | some network =>
    simp only [hf] at h
    cases hd : doClear cfg st network with
    | none => simp only [hd] at h; exact PassOut.noConfusion h
    | some r =>
      obtain ⟨s, t⟩ := r
      simp only [hd] at h
      refine ⟨network, rfl, ?_⟩
      obtain ⟨rfl, rfl⟩ := h
      exact hd

/-! ## C1: flow-count consistency -/

/-- C1: for every grid state and configuration, every (arbitrarily
fueled, hence every terminating) run of `resolveAll()` returns a
`flowsGained` equal to the number of `CLEAR` steps in the returned step
list and equal to the number of `FLOW_COUNT` steps, each of which carries
delta = +1. -/
theorem resolveAll_flow_count_consistency
    (cfg : StageConfig) (fuel : Nat) (st : BoardState)
    (out : List ResolveStep × Nat) (h : resolveOut cfg fuel st = some out) :
    out.1.countP isClearStep = out.2 ∧ out.1.countP isFlowCountStep = out.2 ∧
    ∀ d, ResolveStep.FLOW_COUNT d ∈ out.1 → d = 1 := by
  induction fuel generalizing st out with
  | zero =>
    obtain rfl : (([], 0) : List ResolveStep × Nat) = out := by
      simpa [resolveOut, resolveAllFuel] using h
    simp
  | succ fuel ih =>
    rw [resolveOut, resolveAllFuel] at h
    cases hp : resolvePass cfg st with
    | err => simp only [hp, Option.map_none'] at h; exact Option.noConfusion h
    | settled =>
      simp only [hp] at h
      obtain rfl : (([], 0) : List ResolveStep × Nat) = out := by simpa using h
      simp
    | cleared steps st' =>
      simp only [hp] at h
      cases hrec : resolveAllFuel cfg fuel st' with
      | none => simp only [hrec, Option.map_none'] at h; exact Option.noConfusion h
      | some r =>
        simp only [hrec] at h
        obtain rfl : ((steps ++ r.1, r.2.1 + 1) : List ResolveStep × Nat) = out := by
          simpa using h
        obtain ⟨network, _, hd⟩ := resolvePass_cleared hp
        obtain ⟨hc1, hf1, hdelta, _, _⟩ := doClear_steps_spec hd
        have hr : resolveOut cfg fuel st' = some (r.1, r.2.1) := by
          simp [resolveOut, hrec]
        obtain ⟨ihc, ihf, ihd⟩ := ih st' (r.1, r.2.1) hr
        refine ⟨?_, ?_, ?_⟩
        · simp only [List.countP_append]
          simp only at ihc
          omega
        · simp only [List.countP_append]
          simp only at ihf
          omega
        · intro d hd'
          rcases List.mem_append.mp hd' with hmem | hmem
          · exact hdelta d hmem
          · exact ihd d hmem

/-- C1 witness: the single-pass run on the clearable 1×3 straight board
emits one `CLEAR`, one `FLOW_COUNT{+1}`, and returns `flowsGained = 1`. -/
theorem resolveAll_flow_count_consistency_witness :
    outRun.1.countP isClearStep = outRun.2 ∧
    outRun.1.countP isFlowCountStep = outRun.2 ∧
    ∀ d, ResolveStep.FLOW_COUNT d ∈ outRun.1 → d = 1 :=
  resolveAll_flow_count_consistency cfg3x1 1 stRun outRun (by decide)

/-! ## C2: the no-leak invariant -/

/-- C2: every `CLEAR` step emitted by a `resolveAll()` run clears a cell
set that, at the moment of clearing (the state reached by the passes
before it), reaches the drain (some cell on the right edge opens Right)
and satisfies the Validator's full leak-freedom condition
(`checkNetworkValid`): every open connector either points off-grid at an
enabled inlet/drain edge or at an occupied in-network neighbor with the
complementary direction open. -/
theorem resolveAll_clear_leak_free
    (cfg : StageConfig) (fuel : Nat) (st : BoardState)
    (out : List ResolveStep × Nat) (h : resolveOut cfg fuel st = some out)
    (cells : List Pos) (hmem : ResolveStep.CLEAR cells ∈ out.1) :
    ∃ stm, PassReach cfg st stm ∧
      networkReachesRight cfg stm.grid cells = true ∧
      checkNetworkValid cfg stm.grid cells = true := by
  induction fuel generalizing st out with
  | zero =>
    obtain rfl : (([], 0) : List ResolveStep × Nat) = out := by
      simpa [resolveOut, resolveAllFuel] using h
    simp at hmem
  | succ fuel ih =>
    rw [resolveOut, resolveAllFuel] at h
    cases hp : resolvePass cfg st with
    | err => simp only [hp, Option.map_none'] at h; exact Option.noConfusion h
    | settled =>
      simp only [hp] at h
      obtain rfl : (([], 0) : List ResolveStep × Nat) = out := by simpa using h
      simp at hmem
    | cleared steps st' =>
      simp only [hp] at h
      cases hrec : resolveAllFuel cfg fuel st' with
      | none => simp only [hrec, Option.map_none'] at h; exact Option.noConfusion h
      | some r =>
        simp only [hrec] at h
        obtain rfl : ((steps ++ r.1, r.2.1 + 1) : List ResolveStep × Nat) = out := by
          simpa using h
        rcases List.mem_append.mp hmem with hm | hm
        · obtain ⟨network, hfind, hd⟩ := resolvePass_cleared hp
          obtain ⟨-, -, -, hcl, -⟩ := doClear_steps_spec hd
          obtain rfl := hcl cells hm
          obtain ⟨hreach, hvalid⟩ := findInlet_spec hfind
          exact ⟨st, Relation.ReflTransGen.refl, hreach, hvalid⟩
        · have hr : resolveOut cfg fuel st' = some (r.1, r.2.1) := by
            simp [resolveOut, hrec]
          obtain ⟨stm, hpr, hre, hva⟩ := ih st' (r.1, r.2.1) hr hm
          exact ⟨stm, Relation.ReflTransGen.head ⟨steps, hp⟩ hpr, hre, hva⟩

/-- C2 witness: the `CLEAR` step of the 1×3 straight-run board clears a
drain-reaching, leak-free set. -/
theorem resolveAll_clear_leak_free_witness :
    ∃ stm, PassReach cfg3x1 stRun stm ∧
      networkReachesRight cfg3x1 stm.grid [⟨0, 0⟩, ⟨1, 0⟩, ⟨2, 0⟩] = true ∧
      checkNetworkValid cfg3x1 stm.grid [⟨0, 0⟩, ⟨1, 0⟩, ⟨2, 0⟩] = true :=
  resolveAll_clear_leak_free cfg3x1 1 stRun outRun (by decide)
    [⟨0, 0⟩, ⟨1, 0⟩, ⟨2, 0⟩] (by decide)

/-! ## C3: WATER step distances -/

/-- C3 counterexample: the spec's 1×3 scenario board — inlet left of row
0, drain right of row 0, masks Right / Left+Right / Left — produces no
steps at all (the inlet cell does not open Left, so no network is even
seeded), in particular no `WATER` step with distances 0, 1, 2; and on the
variant board that does clear, the emitted `WATER` cells all carry
distance 0 (see the amended theorem). -/
theorem water_dist_scenario_counterexample :
    tileMask (mkTile .STOP1 1) = DirR ∧
    tileMask (mkTile .I2 1) = (DirL ||| DirR) ∧
    tileMask (mkTile .STOP1 3) = DirL ∧
    resolveOut cfg3x1 3 stScenario = some ([], 0) := by decide

/-- C3 (amended): every `WATER` step emitted by `resolveAll()` carries
`dist = 0` for every cell — the source writes the placeholder `dist: 0`
instead of a BFS layer index. -/
theorem resolveAll_water_dist_zero
    (cfg : StageConfig) (fuel : Nat) (st : BoardState)
    (out : List ResolveStep × Nat) (h : resolveOut cfg fuel st = some out)
    (wc : List WaterCell) (hmem : ResolveStep.WATER wc ∈ out.1) :
    ∀ c ∈ wc, c.dist = 0 := by
  induction fuel generalizing st out with
  | zero =>
    obtain rfl : (([], 0) : List ResolveStep × Nat) = out := by
      simpa [resolveOut, resolveAllFuel] using h
    simp at hmem
  | succ fuel ih =>
    rw [resolveOut, resolveAllFuel] at h
    cases hp : resolvePass cfg st with
    | err => simp only [hp, Option.map_none'] at h; exact Option.noConfusion h
    | settled =>
      simp only [hp] at h
      obtain rfl : (([], 0) : List ResolveStep × Nat) = out := by simpa using h
      simp at hmem
    | cleared steps st' =>
      simp only [hp] at h
      cases hrec : resolveAllFuel cfg fuel st' with
      | none => simp only [hrec, Option.map_none'] at h; exact Option.noConfusion h
      | some r =>
        simp only [hrec] at h
        obtain rfl : ((steps ++ r.1, r.2.1 + 1) : List ResolveStep × Nat) = out := by
          simpa using h
        rcases List.mem_append.mp hmem with hm | hm
        · obtain ⟨network, -, hd⟩ := resolvePass_cleared hp
          obtain ⟨-, -, -, -, hwater⟩ := doClear_steps_spec hd
          exact hwater wc hm
        · have hr : resolveOut cfg fuel st' = some (r.1, r.2.1) := by
            simp [resolveOut, hrec]
          exact ih st' (r.1, r.2.1) hr hm

/-- C3 amended-claim witness: the middle cell of the `WATER` step of the
clearable 1×3 run — one BFS layer from the inlet — carries distance 0. -/
theorem resolveAll_water_dist_zero_witness :
    (⟨1, 0, 0⟩ : WaterCell).dist = 0 :=
  resolveAll_water_dist_zero cfg3x1 1 stRun outRun (by decide)
    [⟨0, 0, 0⟩, ⟨1, 0, 0⟩, ⟨2, 0, 0⟩] (by decide) ⟨1, 0, 0⟩ (by decide)

/-! ## C4: the full-grid invariant -/

lemma refillGo_frame {cfg : StageConfig} :
    ∀ (cs : List Pos) (g : Grid) (rng : Nat) (ms : List MoveRec)
      (res : Grid × Nat × List MoveRec),
      refillGo cfg cs g rng ms = some res →
      ∀ x y : Int, (∀ c ∈ cs, ¬(c.x = x ∧ c.y = y)) → res.1 x y = g x y := by
  intro cs
  induction cs with
  | nil =>
    intro g rng ms res h x y _
    cases h
    rfl
  | cons c cs ih =>
    intro g rng ms res h x y hnot
    rw [refillGo] at h
    by_cases hocc : (g c.x c.y).isSome
    · rw [if_pos hocc] at h
      exact ih g rng ms res h x y (fun c' hc' => hnot c' (List.mem_cons_of_mem _ hc'))
    · rw [if_neg hocc] at h
      cases hroll : rollTile rng cfg.deck.weights cfg.deck.enabledPieces with
      | none => rw [hroll] at h; exact Option.noConfusion h
      | some tr =>
        obtain ⟨t, rng'⟩ := tr
        rw [hroll] at h
        have hrec := ih _ _ _ _ h x y (fun c' hc' => hnot c' (List.mem_cons_of_mem _ hc'))
        rw [hrec]
        have hne := hnot c (List.mem_cons_self _ _)
        simp only [setCell]
        rw [if_neg]
        simp only [Bool.and_eq_true, decide_eq_true_eq]
        tauto

lemma refillGo_fills {cfg : StageConfig} :
    ∀ (cs : List Pos) (g : Grid) (rng : Nat) (ms : List MoveRec)
      (res : Grid × Nat × List MoveRec),
      refillGo cfg cs g rng ms = some res →
      ∀ c ∈ cs, (res.1 c.x c.y).isSome := by
  intro cs
  induction cs with
  | nil => intro g rng ms res h c hc; simp at hc
  | cons c cs ih =>
    intro g rng ms res h c' hc'
    rw [refillGo] at h
    by_cases hocc : (g c.x c.y).isSome
    · rw [if_pos hocc] at h
      rcases List.mem_cons.mp hc' with rfl | hmem
      · by_cases hin : c' ∈ cs
        · exact ih g rng ms res h c' hin
        · have := refillGo_frame cs g rng ms res h c'.x c'.y
            (fun d hd hxy => hin (by
              have : d = c' := by
                cases d; cases c'
                simp_all
              exact this ▸ hd))
          rw [this]
          exact hocc
      · exact ih g rng ms res h c' hmem
    · rw [if_neg hocc] at h
      cases hroll : rollTile rng cfg.deck.weights cfg.deck.enabledPieces with
      | none => rw [hroll] at h; exact Option.noConfusion h
      | some tr =>
        obtain ⟨t, rng'⟩ := tr
        rw [hroll] at h
        rcases List.mem_cons.mp hc' with rfl | hmem
        · by_cases hin : c' ∈ cs
          · exact ih _ _ _ _ h c' hin
          · have := refillGo_frame cs _ _ _ res h c'.x c'.y
              (fun d hd hxy => hin (by
                have : d = c' := by
                  cases d; cases c'
                  simp_all
                exact this ▸ hd))
            rw [this]
            simp [setCell]
        · exact ih _ _ _ _ h c' hmem

lemma mem_refillCoords {cfg : StageConfig} {x y : Int}
    (hx0 : 0 ≤ x) (hxw : x < (cfg.width : Int))
    (hy0 : 0 ≤ y) (hyh : y < (cfg.height : Int)) :
    (⟨x, y⟩ : Pos) ∈ refillCoords cfg := by
  have hx : ∃ i : Nat, i < cfg.width ∧ ((i : Nat) : Int) = x := ⟨x.toNat, by omega, by omega⟩
  have hy : ∃ j : Nat, j < cfg.height ∧ ((j : Nat) : Int) = y := ⟨y.toNat, by omega, by omega⟩
  obtain ⟨i, hi, rfl⟩ := hx
  obtain ⟨j, hj, rfl⟩ := hy
  rw [refillCoords]
  exact List.mem_flatMap.mpr ⟨(i : Int),
    List.mem_map_of_mem (fun n : Nat => (n : Int)) (List.mem_range.mpr hi),
    List.mem_map_of_mem _
      (List.mem_map_of_mem (fun n : Nat => (n : Int)) (List.mem_range.mpr hj))⟩

lemma gridFull_iff {cfg : StageConfig} {g : Grid} :
    gridFull cfg g = true ↔
      ∀ x y : Int, 0 ≤ x → x < (cfg.width : Int) → 0 ≤ y → y < (cfg.height : Int) →
        (g x y).isSome := by
  simp only [gridFull, List.all_eq_true, List.mem_range]
  constructor
  · intro H x y hx0 hxw hy0 hyh
    have := H y.toNat (by omega) x.toNat (by omega)
    have hgx : ((x.toNat : Nat) : Int) = x := by omega
    have hgy : ((y.toNat : Nat) : Int) = y := by omega
    rwa [hgx, hgy] at this
  · intro H j hj i hi
    exact H (i : Int) (j : Int) (by omega) (by omega) (by omega) (by omega)

lemma refillFromTop_full {cfg : StageConfig} {g : Grid} {rng : Nat}
    {res : Grid × Nat × List MoveRec}
    (h : refillFromTop cfg g rng = some res) : gridFull cfg res.1 = true := by
  rw [gridFull_iff]
  intro x y hx0 hxw hy0 hyh
  exact refillGo_fills (refillCoords cfg) g rng [] res h ⟨x, y⟩
    (mem_refillCoords hx0 hxw hy0 hyh)

lemma resolvePass_full {cfg : StageConfig} {st : BoardState}
    {steps : List ResolveStep} {st' : BoardState}
    (h : resolvePass cfg st = PassOut.cleared steps st') :
    gridFull cfg st'.grid = true := by
  obtain ⟨network, -, hd⟩ := resolvePass_cleared h
  simp only [doClear] at hd
  cases hr : refillFromTop cfg
      (applyGravity cfg (clearCells cfg st.grid network)).1 st.rng with
  | none => rw [hr] at hd; exact Option.noConfusion hd
  | some r =>
    rw [hr] at hd
    obtain ⟨g3, rng', rmoves⟩ := r
    simp only [Option.some.injEq, Prod.mk.injEq] at hd
    obtain ⟨-, hst⟩ := hd
    have := refillFromTop_full hr
    rw [← hst]
    exact this

/-- C4 counterexample: calling `resolveAll()` on a board with an empty
cell and no clearable network returns it unchanged — the empty cell
survives, because refill only runs after a clear. -/
theorem full_grid_counterexample :
    resolveOut cfg1x1 5 stEmpty1 = some ([], 0) ∧
    (finalState cfg1x1 5 stEmpty1).grid 0 0 = none := by decide

/-- C4 (amended): after `resolveAll()` returns, every cell of the grid is
occupied provided every cell was occupied when it was called — each clear
is followed by gravity and a refill that restores global fullness, but a
grid entered with holes and no clearable network keeps its holes. -/
theorem resolveAll_preserves_fullness
    (cfg : StageConfig) (fuel : Nat) (st : BoardState)
    (h : gridFull cfg st.grid = true) :
    gridFull cfg (finalState cfg fuel st).grid = true := by
  induction fuel generalizing st with
  | zero => simpa [finalState, resolveAllFuel] using h
  | succ fuel ih =>
    have hgoal : finalState cfg (fuel + 1) st =
        match resolvePass cfg st with
        | PassOut.err => st
        | PassOut.settled => st
        | PassOut.cleared _ st' =>
          match resolveAllFuel cfg fuel st' with
          | none => st
          | some r => r.2.2 := by
      rw [finalState, resolveAllFuel]
      cases resolvePass cfg st with
      | err => rfl
      | settled => rfl
      | cleared steps st' =>
        dsimp only
        cases resolveAllFuel cfg fuel st' with
        | none => rfl
        | some r => rfl
    rw [hgoal]
    cases hp : resolvePass cfg st with
    | err => exact h
    | settled => exact h
    | cleared steps st' =>
      dsimp only
      cases hrec : resolveAllFuel cfg fuel st' with
      | none => exact h
      | some r =>
        have hfin := ih st' (resolvePass_full hp)
        rw [finalState, hrec] at hfin
        exact hfin

/-- C4 amended-claim witness: a full 1×1 board stays full through
`resolveAll()`. -/
theorem resolveAll_preserves_fullness_witness :
    gridFull cfg1x1 stFull1.grid = true ∧
    gridFull cfg1x1 (finalState cfg1x1 5 stFull1).grid = true :=
  ⟨by decide, resolveAll_preserves_fullness cfg1x1 5 stFull1 (by decide)⟩

/-! ## C5: the loop has no pass cap -/

/-- C5: the resolve loop of the source is `while (true)` with no
iteration cap and no fatal invariant report; on the 1×1 board seeded so
that two consecutive refills again produce Left+Right tiles, the loop
simply keeps clearing — three passes complete and the call returns
normally (`flowsGained = 3`) with no violation ever reported. -/
theorem resolveAll_uncapped_multi_pass :
    (resolveOut cfg1x1 20 stSpin).map (fun r => r.2) = some 3 := by decide

/-! ## C6: determinism -/

/-- C6: two engines constructed from the same stage configuration with an
explicit (non-null) RNG seed and fed the same rotate/swap/resolve call
sequence produce identical step-list sequences and identical
`flowsGained` values, whatever entropy would have been used for an
absent seed. -/
theorem engine_determinism (cfg : StageConfig) (s : Int) (e1 e2 : Int)
    (fuel : Nat) (calls : List GameCall) (h : cfg.deck.seed = some s) :
    runGame cfg e1 fuel calls = runGame cfg e2 fuel calls := by
  unfold runGame mkBoard
  rw [h]

/-- C6 witness: two concrete entropies, same seeded configuration, same
call sequence, equal outputs. -/
theorem engine_determinism_witness :
    runGame cfg1x1 0 5 [GameCall.rotate 0 0, GameCall.swap ⟨0, 0⟩ ⟨1, 0⟩, GameCall.resolve] =
    runGame cfg1x1 123 5 [GameCall.rotate 0 0, GameCall.swap ⟨0, 0⟩ ⟨1, 0⟩, GameCall.resolve] :=
  engine_determinism cfg1x1 1 0 123 5
    [GameCall.rotate 0 0, GameCall.swap ⟨0, 0⟩ ⟨1, 0⟩, GameCall.resolve] rfl

/-! ## C10: triggering a non-arrow position is a no-op -/

/-- C10: for every position whose cell is absent (including out-of-range
positions) or holds a non-`ARROW` tile, `triggerArrowAt` returns an empty
step list and leaves the state unchanged; moreover, for every position
whatsoever, it never changes the cumulative `waterFlows` counter and
never emits a `FLOW_COUNT` step. -/
theorem triggerArrow_non_arrow_noop (cfg : StageConfig) (st : BoardState) (pos : Pos) :
    ((∀ t, getCell cfg st.grid pos.x pos.y = some t → t.kind ≠ TileKind.ARROW) →
      triggerArrowAt cfg st pos = ([], st)) ∧
    (triggerArrowAt cfg st pos).2.waterFlows = st.waterFlows ∧
    ∀ d, ResolveStep.FLOW_COUNT d ∉ (triggerArrowAt cfg st pos).1 := by
  unfold triggerArrowAt
  cases hg : getCell cfg st.grid pos.x pos.y with
  | none => exact ⟨fun _ => rfl, rfl, by simp⟩
  | some t =>
    dsimp only
    by_cases hk : t.kind ≠ TileKind.ARROW
    · rw [if_pos hk]
      exact ⟨fun _ => rfl, rfl, by simp⟩
    · rw [if_neg hk]
      refine ⟨fun hno => absurd (hno t rfl) hk, ?_, ?_⟩
      · cases hf : ALL_DIRS.find? (fun d => hasBit (tileMask t) d) with
        | none => rfl
        | some dir => rfl
      · intro d
        cases hf : ALL_DIRS.find? (fun d => hasBit (tileMask t) d) with
        | none => simp
        | some dir =>
          simp only [List.singleton_append, List.mem_cons]
          rintro (h | h)
          · exact ResolveStep.noConfusion h
          · split_ifs at h <;> simp_all

/-- C10 witness: triggering the empty cell of the empty 1×1 board is a
no-op. -/
theorem triggerArrow_non_arrow_noop_witness :
    triggerArrowAt cfg1x1 stEmpty1 ⟨0, 0⟩ = ([], stEmpty1) :=
  (triggerArrow_non_arrow_noop cfg1x1 stEmpty1 ⟨0, 0⟩).1
    (fun t h => by simp [getCell, stEmpty1, emptyGrid] at h)

/-! ## C9: the weighted picker -/

lemma posW_nonneg (w : PieceId → Int) (en : PieceId → Bool) (k : PieceId) :
    0 ≤ posW w en k := by
  unfold posW
  split_ifs <;> omega

lemma sumPosL_nonneg (w : PieceId → Int) (en : PieceId → Bool) :
    ∀ l : List PieceId, 0 ≤ sumPosL w en l := by
  intro l
  induction l with
  | nil => simp [sumPosL]
  | cons k ks ih =>
    have hk := posW_nonneg w en k
    simp only [sumPosL, List.map_cons, List.sum_cons] at *
    omega

lemma sumPosL_cons (w : PieceId → Int) (en : PieceId → Bool) (k : PieceId)
    (ks : List PieceId) :
    sumPosL w en (k :: ks) = posW w en k + sumPosL w en ks := by
  simp [sumPosL]

lemma scanPick_mem {w : PieceId → Int} {en : PieceId → Bool} :
    ∀ {l : List PieceId} {r : Int} {k : PieceId},
      scanPick w en r l = some k → k ∈ l ∧ en k = true ∧ 0 < w k := by
  intro l
  induction l with
  | nil => intro r k h; exact Option.noConfusion h
  | cons a as ih =>
    intro r k h
    rw [scanPick] at h
    split_ifs at h with h1 h2 h3
    · obtain ⟨hm, he, hw⟩ := ih h
      exact ⟨List.mem_cons_of_mem _ hm, he, hw⟩
    · obtain ⟨hm, he, hw⟩ := ih h
      exact ⟨List.mem_cons_of_mem _ hm, he, hw⟩
    · obtain rfl : a = k := by simpa using h
      refine ⟨List.mem_cons_self _ _, ?_, by omega⟩
      simpa using h1
    · obtain ⟨hm, he, hw⟩ := ih h
      exact ⟨List.mem_cons_of_mem _ hm, he, hw⟩

lemma scanPick_iff {w : PieceId → Int} {en : PieceId → Bool} :
    ∀ (l : List PieceId), l.Nodup → ∀ (r : Int), 0 ≤ r → ∀ k,
      (scanPick w en r l = some k ↔
        en k = true ∧ 0 < w k ∧ k ∈ l ∧
        sumPosL w en (l.takeWhile (fun j => j ≠ k)) * 4294967296 ≤ r ∧
        r < (sumPosL w en (l.takeWhile (fun j => j ≠ k)) + w k) * 4294967296) := by
  intro l
  induction l with
  | nil => intro _ r hr k; simp [scanPick]
  | cons a as ih =>
    intro hnd r hr k
    have hand : a ∉ as := (List.nodup_cons.mp hnd).1
    have hnd' : as.Nodup := (List.nodup_cons.mp hnd).2
    rw [scanPick]
    by_cases hk : a = k
    · subst hk
      have htw : (a :: as).takeWhile (fun j => j ≠ a) = [] := by
        simp [List.takeWhile]
      rw [htw]
      split_ifs with h1 h2 h3
      · constructor
        · intro h
          exact absurd ((scanPick_mem h).1) hand
        · rintro ⟨he, -, -⟩
          rw [he] at h1
          exact absurd h1 (by simp)
      · constructor
        · intro h
          exact absurd ((scanPick_mem h).1) hand
        · rintro ⟨-, hw, -⟩
          omega
      · simp only [sumPosL, List.map_nil, List.sum_nil, zero_mul, zero_add]
        constructor
        · intro _
          refine ⟨by simpa using h1, by omega, List.mem_cons_self _ _, hr, by omega⟩
        · intro _
          trivial
      · simp only [sumPosL, List.map_nil, List.sum_nil, zero_mul, zero_add]
        constructor
        · intro h
          exact absurd ((scanPick_mem h).1) hand
        · rintro ⟨-, -, -, -, hub⟩
          omega
    · have htw : (a :: as).takeWhile (fun j => j ≠ k) =
          a :: as.takeWhile (fun j => j ≠ k) := by
        simp [List.takeWhile, hk]
      rw [htw, sumPosL_cons]
      have hmem : (k ∈ a :: as) ↔ k ∈ as := by
        simp [show ¬(k = a) from fun e => hk e.symm]
      split_ifs with h1 h2 h3
      · have hpa : posW w en a = 0 := by simp [posW, h1]
        rw [hpa, zero_add]
        rw [ih hnd' r hr k, hmem]
      · have hpa : posW w en a = 0 := by
          simp only [posW]
          rw [if_neg (by simpa using h1), if_neg (by omega)]
        rw [hpa, zero_add]
        rw [ih hnd' r hr k, hmem]
      · have hpa : posW w en a = w a := by
          simp only [posW]
          rw [if_neg (by simpa using h1), if_pos (by omega)]
        rw [hpa]
        constructor
        · intro h
          exact absurd (by simpa using h : a = k) hk
        · rintro ⟨-, -, -, hlb, -⟩
          have := sumPosL_nonneg w en (as.takeWhile (fun j => j ≠ k))
          omega
      · have hpa : posW w en a = w a := by
          simp only [posW]
          rw [if_neg (by simpa using h1), if_pos (by omega)]
        rw [hpa]
        rw [ih hnd' (r - w a * 4294967296) (by omega) k, hmem]
        constructor
        · rintro ⟨he, hw, hm, hlb, hub⟩
          exact ⟨he, hw, hm, by omega, by omega⟩
        · rintro ⟨he, hw, hm, hlb, hub⟩
          exact ⟨he, hw, hm, by omega, by omega⟩

lemma mem_pieceKeys (k : PieceId) : k ∈ pieceKeys := by
  cases k <;> decide

lemma pieceKeys_nodup : pieceKeys.Nodup := by decide

lemma sumPosL_pos_exists {w : PieceId → Int} {en : PieceId → Bool} :
    ∀ {l : List PieceId}, 0 < sumPosL w en l →
      ∃ k ∈ l, en k = true ∧ 0 < w k := by
  intro l
  induction l with
  | nil => intro h; simp [sumPosL] at h
  | cons a as ih =>
    intro h
    rw [sumPosL_cons] at h
    by_cases hpa : 0 < posW w en a
    · refine ⟨a, List.mem_cons_self _ _, ?_⟩
      unfold posW at hpa
      split_ifs at hpa with he hw
      · omega
      · exact ⟨by simpa using he, hw⟩
      · omega
    · have : 0 < sumPosL w en as := by
        have := posW_nonneg w en a
        omega
      obtain ⟨k, hm, hk⟩ := ih this
      exact ⟨k, List.mem_cons_of_mem _ hm, hk⟩

/-- C9: `pickWeighted(weights, enabledFilter)` fails with the
configuration error exactly when the filtered positive-weight total is
≤ 0; and the selection scan is proportional to the weights: for any drawn
value `r ∈ [0, total)` (scaled by `2^32` as throughout), it selects
exactly the enabled, positive-weight key whose half-open weight interval
`[preW k, preW k + w k)` contains `r` — so each key is drawn with
probability proportional to its positive weight. -/
theorem pickWeighted_spec (w : PieceId → Int) (en : PieceId → Bool) (st : Nat) :
    (pickWeighted st w en = none ↔ sumPos w en ≤ 0) ∧
    (∀ r : Int, 0 ≤ r → ∀ k,
      (scanPick w en r pieceKeys = some k ↔
        en k = true ∧ 0 < w k ∧
        preW w en k * 4294967296 ≤ r ∧
        r < (preW w en k + w k) * 4294967296)) := by
  constructor
  · constructor
    · intro h
      by_contra htot
      simp only [pickWeighted] at h
      rw [if_neg htot] at h
      cases hs : scanPick w en ((nextU32 st : Int) * sumPos w en) pieceKeys with
      | some k => rw [hs] at h; exact Option.noConfusion h
      | none =>
        rw [hs] at h
        have hpos : 0 < sumPos w en := by omega
        obtain ⟨k, hm, he, -⟩ := sumPosL_pos_exists hpos
        have : (pieceKeys.find? (fun k => en k)).isSome :=
          List.find?_isSome.mpr ⟨k, hm, by simpa using he⟩
        cases hf : pieceKeys.find? (fun k => en k) with
        | none => rw [hf] at this; simp at this
        | some k' => rw [hf] at h; exact Option.noConfusion h
    · intro h
      rw [pickWeighted, if_pos h]
  · intro r hr k
    have := @scanPick_iff w en pieceKeys pieceKeys_nodup r hr k
    rw [this, preW]
    simp [mem_pieceKeys]

/-- C9 witness: with the stage_001 weight table (I2 45, L2 45, T3 10,
total 100), a drawn value of 50 falls in L2's interval [45, 90) and
selects L2; failure is equivalent to a non-positive total. -/
theorem pickWeighted_spec_witness :
    (pickWeighted 7 wStage enStage = none ↔ sumPos wStage enStage ≤ 0) ∧
    (scanPick wStage enStage (50 * 4294967296) pieceKeys = some PieceId.L2 ↔
      enStage PieceId.L2 = true ∧ 0 < wStage PieceId.L2 ∧
      preW wStage enStage PieceId.L2 * 4294967296 ≤ 50 * 4294967296 ∧
      50 * 4294967296 < (preW wStage enStage PieceId.L2 + wStage PieceId.L2) * 4294967296) :=
  ⟨(pickWeighted_spec wStage enStage 7).1,
   (pickWeighted_spec wStage enStage 7).2 (50 * 4294967296) (by decide) PieceId.L2⟩

/-! ## C7: the arrow trigger -/

lemma inBounds_iff {cfg : StageConfig} {x y : Int} :
    inBounds cfg x y = true ↔
      0 ≤ x ∧ x < (cfg.width : Int) ∧ 0 ≤ y ∧ y < (cfg.height : Int) := by
  simp [inBounds, and_assoc]

lemma rayCollect_mem {cfg : StageConfig} {g : Grid} {dx dy : Int} :
    ∀ (fuel : Nat) (x0 y0 : Int) (p : Pos),
      p ∈ rayCollect cfg g dx dy fuel x0 y0 ↔
        ∃ j : Nat, j < fuel ∧
          (∀ i : Nat, i ≤ j →
            inBounds cfg (x0 + (i : Int) * dx) (y0 + (i : Int) * dy) = true) ∧
          p.x = x0 + (j : Int) * dx ∧ p.y = y0 + (j : Int) * dy ∧
          (g p.x p.y).isSome := by
  intro fuel
  induction fuel with
  | zero => intro x0 y0 p; simp [rayCollect]
  | succ fuel ih =>
    intro x0 y0 p
    rw [rayCollect]
    by_cases hb : inBounds cfg x0 y0 = true
    · rw [if_pos hb]
      constructor
      · intro hp
        rcases List.mem_append.mp hp with hp | hp
        · by_cases hocc : (g x0 y0).isSome
          · rw [if_pos hocc] at hp
            obtain rfl : p = ⟨x0, y0⟩ := by simpa using hp
            refine ⟨0, by omega, ?_, by simp, by simp, hocc⟩
            intro i hi
            obtain rfl : i = 0 := by omega
            simpa using hb
          · rw [if_neg hocc] at hp
            simp at hp
        · obtain ⟨j, hj, hball, hx, hy, hocc⟩ := (ih (x0 + dx) (y0 + dy) p).mp hp
          refine ⟨j + 1, by omega, ?_, ?_, ?_, hocc⟩
          · intro i hi
            cases i with
            | zero => simpa using hb
            | succ i =>
              have harg1 : x0 + ((i + 1 : Nat) : Int) * dx = x0 + dx + (i : Int) * dx := by
                push_cast; ring
              have harg2 : y0 + ((i + 1 : Nat) : Int) * dy = y0 + dy + (i : Int) * dy := by
                push_cast; ring
              rw [harg1, harg2]
              exact hball i (by omega)
          · rw [hx]; push_cast; ring
          · rw [hy]; push_cast; ring
      · rintro ⟨j, hj, hball, hx, hy, hocc⟩
        cases j with
        | zero =>
          have hpx : p.x = x0 := by simpa using hx
          have hpy : p.y = y0 := by simpa using hy
          apply List.mem_append_left
          have hgocc : (g x0 y0).isSome = true := by rw [← hpx, ← hpy]; exact hocc
          rw [if_pos hgocc]
          have hp : p = ⟨x0, y0⟩ := by cases p; simp_all
          simp [hp]
        | succ j =>
          apply List.mem_append_right
          refine (ih (x0 + dx) (y0 + dy) p).mpr ⟨j, by omega, ?_, ?_, ?_, hocc⟩
          · intro i hi
            have harg1 : x0 + dx + (i : Int) * dx = x0 + ((i + 1 : Nat) : Int) * dx := by
              push_cast; ring
            have harg2 : y0 + dy + (i : Int) * dy = y0 + ((i + 1 : Nat) : Int) * dy := by
              push_cast; ring
            rw [harg1, harg2]
            exact hball (i + 1) (by omega)
          · rw [hx]; push_cast; ring
          · rw [hy]; push_cast; ring
    · rw [if_neg hb]
      simp only [List.not_mem_nil, false_iff]
      rintro ⟨j, hj, hball, -⟩
      have h0 := hball 0 (by omega)
      simp at h0
      exact hb h0

lemma ray_char {cfg : StageConfig} {g : Grid} {dx dy : Int} {pos : Pos}
    (hdir : (dx = 0 ∧ dy = -1) ∨ (dx = 1 ∧ dy = 0) ∨ (dx = 0 ∧ dy = 1) ∨
      (dx = -1 ∧ dy = 0))
    (hpos : inBounds cfg pos.x pos.y = true) (p : Pos) :
    p ∈ rayCollect cfg g dx dy (cfg.width + cfg.height + 1)
        (pos.x + dx) (pos.y + dy) ↔
      ∃ k : Nat, 0 < k ∧ p.x = pos.x + (k : Int) * dx ∧
        p.y = pos.y + (k : Int) * dy ∧
        inBounds cfg p.x p.y = true ∧ (g p.x p.y).isSome := by
  rw [rayCollect_mem]
  rw [inBounds_iff] at hpos
  constructor
  · rintro ⟨j, hj, hball, hx, hy, hocc⟩
    have hbj := hball j (le_refl j)
    refine ⟨j + 1, by omega, ?_, ?_, ?_, hocc⟩
    · rw [hx]; push_cast; ring
    · rw [hy]; push_cast; ring
    · rw [hx, hy]; exact hbj
  · rintro ⟨k, hk, hx, hy, hbp, hocc⟩
    obtain ⟨j, rfl⟩ : ∃ j : Nat, k = j + 1 := ⟨k - 1, by omega⟩
    rw [inBounds_iff] at hbp
    refine ⟨j, ?_, ?_, ?_, ?_, hocc⟩
    · rcases hdir with ⟨rfl, rfl⟩ | ⟨rfl, rfl⟩ | ⟨rfl, rfl⟩ | ⟨rfl, rfl⟩ <;>
        (push_cast at hx hy; omega)
    · intro i hi
      rw [inBounds_iff]
      rcases hdir with ⟨rfl, rfl⟩ | ⟨rfl, rfl⟩ | ⟨rfl, rfl⟩ | ⟨rfl, rfl⟩ <;>
        (push_cast at hx hy ⊢; omega)
    · rw [hx]; push_cast; ring
    · rw [hy]; push_cast; ring

/-- C7 counterexample: on the 1×4 board with an `ARROW` at (0,0) pointing
Right, an empty cell at (1,0) and an occupied cell at (2,0), triggering
the arrow clears (2,0) as well — the walk does not stop at the first
empty cell, it skips it and clears every occupied cell out to the edge. -/
theorem arrow_skips_empty_counterexample :
    stArrow.grid 1 0 = none ∧
    (triggerArrowAt cfg4x1 stArrow ⟨0, 0⟩).1 =
      [ResolveStep.CLEAR [⟨0, 0⟩, ⟨2, 0⟩]] ∧
    (triggerArrowAt cfg4x1 stArrow ⟨0, 0⟩).2.grid 2 0 = none := by decide

/-- C7 (amended): triggering an `ARROW` tile clears the tile itself and
every occupied cell along its open direction all the way to the board
edge — empty cells along the ray are skipped over, not stopped at — and
then applies gravity. -/
theorem triggerArrow_clears_ray
    (cfg : StageConfig) (st : BoardState) (pos : Pos) (t : Tile) (dir : Nat)
    (hg : getCell cfg st.grid pos.x pos.y = some t)
    (hk : t.kind = TileKind.ARROW)
    (hf : ALL_DIRS.find? (fun d => hasBit (tileMask t) d) = some dir) :
    ∃ cells rest,
      (triggerArrowAt cfg st pos).1 = ResolveStep.CLEAR cells :: rest ∧
      (∀ p : Pos, p ∈ cells ↔ p = pos ∨
        ∃ k : Nat, 0 < k ∧ p.x = pos.x + (k : Int) * (dirOff dir).1 ∧
          p.y = pos.y + (k : Int) * (dirOff dir).2 ∧
          inBounds cfg p.x p.y = true ∧ (st.grid p.x p.y).isSome) ∧
      (triggerArrowAt cfg st pos).2.grid =
        (applyGravity cfg (clearCells cfg st.grid cells)).1 := by
  have hpos : inBounds cfg pos.x pos.y = true := by
    by_cases hbp : inBounds cfg pos.x pos.y = true
    · exact hbp
    · rw [getCell, if_neg hbp] at hg
      exact Option.noConfusion hg
  have hdmem : dir ∈ ALL_DIRS := List.mem_of_find?_eq_some hf
  have hdir : ((dirOff dir).1 = 0 ∧ (dirOff dir).2 = -1) ∨
      ((dirOff dir).1 = 1 ∧ (dirOff dir).2 = 0) ∨
      ((dirOff dir).1 = 0 ∧ (dirOff dir).2 = 1) ∨
      ((dirOff dir).1 = -1 ∧ (dirOff dir).2 = 0) := by
    have : dir = DirU ∨ dir = DirR ∨ dir = DirD ∨ dir = DirL := by
      simpa [ALL_DIRS] using hdmem
    rcases this with rfl | rfl | rfl | rfl
    · exact Or.inl (by constructor <;> rfl)
    · exact Or.inr (Or.inl (by constructor <;> rfl))
    · exact Or.inr (Or.inr (Or.inl (by constructor <;> rfl)))
    · exact Or.inr (Or.inr (Or.inr (by constructor <;> rfl)))
  unfold triggerArrowAt
  rw [hg]
  dsimp only
  rw [if_neg (by simp [hk])]
  rw [hf]
  dsimp only
  refine ⟨_, _, rfl, ?_, rfl⟩
  intro p
  rw [List.mem_cons]
  constructor
  · rintro (rfl | hp)
    · exact Or.inl rfl
    · exact Or.inr ((ray_char hdir hpos p).mp hp)
  · rintro (rfl | hp)
    · exact Or.inl rfl
    · exact Or.inr ((ray_char hdir hpos p).mpr hp)

/-- C7 amended-claim witness: on the 1×4 arrow board the clear set is
characterized by the ray formula. -/
theorem triggerArrow_clears_ray_witness :
    ∃ cells rest,
      (triggerArrowAt cfg4x1 stArrow ⟨0, 0⟩).1 = ResolveStep.CLEAR cells :: rest ∧
      (∀ p : Pos, p ∈ cells ↔ p = ⟨0, 0⟩ ∨
        ∃ k : Nat, 0 < k ∧ p.x = (⟨0, 0⟩ : Pos).x + (k : Int) * (dirOff DirR).1 ∧
          p.y = (⟨0, 0⟩ : Pos).y + (k : Int) * (dirOff DirR).2 ∧
          inBounds cfg4x1 p.x p.y = true ∧ (stArrow.grid p.x p.y).isSome) ∧
      (triggerArrowAt cfg4x1 stArrow ⟨0, 0⟩).2.grid =
        (applyGravity cfg4x1 (clearCells cfg4x1 stArrow.grid cells)).1 :=
  triggerArrow_clears_ray cfg4x1 stArrow ⟨0, 0⟩ (mkTile .ARROW 0) DirR
    (by decide) rfl (by decide)

/-! ## C8: shift along a path -/

lemma setCell_ne {g : Grid} {x y a b : Int} {v : Option Tile}
    (h : ¬(a = x ∧ b = y)) : setCell g x y v a b = g a b := by
  simp only [setCell]
  rw [if_neg]
  simp only [Bool.and_eq_true, decide_eq_true_eq]
  tauto

lemma setCell_self (g : Grid) (x y : Int) (v : Option Tile) :
    setCell g x y v x y = v := by
  simp [setCell]

lemma seqTiles_length {g : Grid} :
    ∀ {l : List Pos} {ts : List Tile}, seqTiles g l = some ts →
      ts.length = l.length := by
  intro l
  induction l with
  | nil =>
    intro ts h
    obtain rfl : ([] : List Tile) = ts := by simpa [seqTiles] using h
    rfl
  | cons p ps ih =>
    intro ts h
    rw [seqTiles] at h
    cases hg : g p.x p.y with
    | none => rw [hg] at h; exact Option.noConfusion h
    | some t =>
      rw [hg] at h
      cases hrec : seqTiles g ps with
      | none => rw [hrec] at h; exact Option.noConfusion h
      | some ts' =>
        rw [hrec] at h
        obtain rfl : t :: ts' = ts := by simpa using h
        simp [ih hrec]

lemma seqTiles_getElem {g : Grid} :
    ∀ {l : List Pos} {ts : List Tile}, seqTiles g l = some ts →
      ∀ i (h1 : i < l.length) (h2 : i < ts.length),
        g (l[i].x) (l[i].y) = some ts[i] := by
  intro l
  induction l with
  | nil => intro ts h i h1 h2; simp at h1
  | cons p ps ih =>
    intro ts h i h1 h2
    rw [seqTiles] at h
    cases hg : g p.x p.y with
    | none => rw [hg] at h; exact Option.noConfusion h
    | some t =>
      rw [hg] at h
      cases hrec : seqTiles g ps with
      | none => rw [hrec] at h; exact Option.noConfusion h
      | some ts' =>
        rw [hrec] at h
        obtain rfl : t :: ts' = ts := by simpa using h
        cases i with
        | zero => simpa using hg
        | succ i =>
          simp only [List.getElem_cons_succ]
          exact ih hrec i (by simpa using h1) (by simpa using h2)

lemma seqTiles_isSome {g : Grid} :
    ∀ {l : List Pos}, (∀ p ∈ l, (g p.x p.y).isSome) →
      (seqTiles g l).isSome := by
  intro l
  induction l with
  | nil => intro _; simp [seqTiles]
  | cons p ps ih =>
    intro hocc
    rw [seqTiles]
    cases hg : g p.x p.y with
    | none =>
      have := hocc p (List.mem_cons_self _ _)
      rw [hg] at this
      simp at this
    | some t =>
      have := ih (fun q hq => hocc q (List.mem_cons_of_mem _ hq))
      cases hrec : seqTiles g ps with
      | none => rw [hrec] at this; simp at this
      | some ts' => simp [hrec]

lemma seqTiles_none {g : Grid} :
    ∀ {l : List Pos} {p : Pos}, p ∈ l → g p.x p.y = none →
      seqTiles g l = none := by
  intro l
  induction l with
  | nil => intro p h; simp at h
  | cons q qs ih =>
    intro p hp hnone
    rw [seqTiles]
    rcases List.mem_cons.mp hp with rfl | hmem
    · rw [hnone]
    · cases hg : g q.x q.y with
      | none => rfl
      | some t => rw [ih hmem hnone]; rfl

lemma rotl_length {α : Type} (l : List α) :
    (l.drop 1 ++ l.take 1).length = l.length := by
  simp only [List.length_append, List.length_drop, List.length_take]
  omega

lemma rotl_getElem {α : Type} (l : List α) (i : Nat) (h : i < l.length)
    (h2 : i < (l.drop 1 ++ l.take 1).length)
    (hm : (i + 1) % l.length < l.length) :
    (l.drop 1 ++ l.take 1)[i] = l[(i + 1) % l.length] := by
  have hlen1 : (l.drop 1).length = l.length - 1 := by simp
  by_cases hlt : i < l.length - 1
  · have hd : i < (l.drop 1).length := by omega
    have h1i : i + 1 < l.length := by omega
    rw [List.getElem_append_left hd, List.getElem_drop l]
    congr 1
    rw [Nat.mod_eq_of_lt h1i]
    omega
  · have hi : i = l.length - 1 := by omega
    have hge : (l.drop 1).length ≤ i := by omega
    rw [List.getElem_append_right hge]
    have h0 : i - (l.drop 1).length = 0 := by omega
    have hsucc : i + 1 = l.length := by omega
    have h0l : 0 < l.length := by omega
    simp only [h0, hsucc, Nat.mod_self]
    rw [List.getElem_take]

lemma foldl_setCell_frame :
    ∀ (ms : List MoveRec) (g : Grid) (q : Pos),
      (∀ mv ∈ ms, mv.toPos ≠ q) →
      (ms.foldl (fun gg mv => setCell gg mv.toPos.x mv.toPos.y (some mv.tile)) g)
          q.x q.y = g q.x q.y := by
  intro ms
  induction ms with
  | nil => intro g q _; rfl
  | cons mv ms ih =>
    intro g q hne
    rw [List.foldl_cons]
    rw [ih _ q (fun m hm => hne m (List.mem_cons_of_mem _ hm))]
    apply setCell_ne
    rintro ⟨hx, hy⟩
    apply hne mv (List.mem_cons_self _ _)
    cases hqp : mv.toPos
    cases q
    simp_all

lemma foldl_setCell_getElem :
    ∀ (ms : List MoveRec) (g : Grid), (ms.map (fun m => m.toPos)).Nodup →
      ∀ i (h : i < ms.length),
        (ms.foldl (fun gg mv => setCell gg mv.toPos.x mv.toPos.y (some mv.tile)) g)
          ms[i].toPos.x ms[i].toPos.y = some ms[i].tile := by
  intro ms
  induction ms with
  | nil => intro g _ i h; simp at h
  | cons mv ms ih =>
    intro g hnd i h
    rw [List.map_cons, List.nodup_cons] at hnd
    obtain ⟨hhead, htail⟩ := hnd
    rw [List.foldl_cons]
    cases i with
    | zero =>
      have hni : ∀ m ∈ ms, m.toPos ≠ mv.toPos := by
        intro m hm heq
        exact hhead (heq ▸ List.mem_map_of_mem _ hm)
      simp only [List.getElem_cons_zero]
      rw [foldl_setCell_frame ms _ mv.toPos hni, setCell_self]
    | succ i =>
      simp only [List.getElem_cons_succ]
      simp only [List.length_cons] at h
      exact ih _ htail i (by omega)

/-- C8 counterexample: a drag path of in-bounds, occupied cells that
revisits its first cell — `[(0,0), (1,0), (0,0)]` on a full 1×2 board —
does not rotate tile occupancy: the tile originally at (1,0) (`L2`)
survives on no cell; both cells end up holding copies of the `I2` tile. -/
theorem shift_duplicate_path_counterexample :
    gTwo 0 0 = some (mkTile .I2 0) ∧
    gTwo 1 0 = some (mkTile .L2 0) ∧
    (∀ p ∈ pathLoop, inBounds cfg2x1 p.x p.y = true) ∧
    (∀ p ∈ pathLoop, (gTwo p.x p.y).isSome) ∧
    2 ≤ pathLoop.length ∧
    (shiftAlongPath cfg2x1 gTwo pathLoop).2 0 0 = some (mkTile .I2 0) ∧
    (shiftAlongPath cfg2x1 gTwo pathLoop).2 1 0 = some (mkTile .I2 0) := by decide

/-- C8 (amended): `shiftAlongPath(path)` is a no-op (empty move list,
grid unchanged) when the path is shorter than 2, contains an
out-of-range cell, or contains an empty cell; and for a path of at least
2 pairwise-distinct in-bounds occupied cells it rotates tile occupancy
one step along the path — the cell at path index `i` receives the tile
from index `(i+1) mod length` (so the head tile lands on the tail) —
returning one move record per path cell, each recording its source cell
and carried tile, and leaving every off-path cell untouched. A path that
revisits a cell is not rotated faithfully (see the counterexample). -/
theorem shiftAlongPath_rotates (cfg : StageConfig) (g : Grid) (path : List Pos) :
    (path.length < 2 → shiftAlongPath cfg g path = ([], g)) ∧
    ((∃ p ∈ path, inBounds cfg p.x p.y = false) → shiftAlongPath cfg g path = ([], g)) ∧
    ((∃ p ∈ path, g p.x p.y = none) → shiftAlongPath cfg g path = ([], g)) ∧
    (2 ≤ path.length → path.Nodup →
      (∀ p ∈ path, inBounds cfg p.x p.y = true) →
      (∀ p ∈ path, (g p.x p.y).isSome) →
      ((shiftAlongPath cfg g path).1.map (fun m => m.toPos) = path ∧
       (shiftAlongPath cfg g path).1.map (fun m => m.fromPos) =
         path.drop 1 ++ path.take 1 ∧
       (∀ mv ∈ (shiftAlongPath cfg g path).1,
         g mv.fromPos.x mv.fromPos.y = some mv.tile) ∧
       (∀ i (h : i < path.length),
         (shiftAlongPath cfg g path).2 (path.get ⟨i, h⟩).x (path.get ⟨i, h⟩).y =
           g (path.get ⟨(i + 1) % path.length, Nat.mod_lt _ (by omega)⟩).x
             (path.get ⟨(i + 1) % path.length, Nat.mod_lt _ (by omega)⟩).y) ∧
       (∀ q : Pos, q ∉ path →
         (shiftAlongPath cfg g path).2 q.x q.y = g q.x q.y))) := by
  refine ⟨?_, ?_, ?_, ?_⟩
  · intro hlen
    rw [shiftAlongPath, if_pos hlen]
  · intro ⟨p, hp, hbad⟩
    rw [shiftAlongPath]
    by_cases hlen : path.length < 2
    · rw [if_pos hlen]
    · rw [if_neg hlen, if_pos]
      intro hall
      have := List.all_eq_true.mp hall p hp
      rw [hbad] at this
      exact Bool.noConfusion this
  · intro ⟨p, hp, hnone⟩
    rw [shiftAlongPath]
    by_cases hlen : path.length < 2
    · rw [if_pos hlen]
    · rw [if_neg hlen]
      by_cases hall : path.all (fun p => inBounds cfg p.x p.y) = true
      · rw [if_neg (by simpa using hall), seqTiles_none hp hnone]
      · rw [if_pos (by simpa using hall)]
  · intro hlen hnd hbnd hocc
    obtain ⟨ts, hts⟩ := Option.isSome_iff_exists.mp (seqTiles_isSome hocc)
    have hlts : ts.length = path.length := seqTiles_length hts
    have hall : path.all (fun p => inBounds cfg p.x p.y) = true :=
      List.all_eq_true.mpr (fun p hp => hbnd p hp)
    set rotT := ts.drop 1 ++ ts.take 1 with hrotT
    set rotP := path.drop 1 ++ path.take 1 with hrotP
    set moves := (path.zip (rotP.zip rotT)).map
      (fun m => { fromPos := m.2.1, toPos := m.1, tile := m.2.2 : MoveRec }) with hmoves
    have hS : shiftAlongPath cfg g path =
        (moves,
         moves.foldl (fun gg mv => setCell gg mv.toPos.x mv.toPos.y (some mv.tile)) g) := by
      rw [shiftAlongPath, if_neg (by omega), if_neg (by simpa using hall), hts]
    have hlP : rotP.length = path.length := rotl_length path
    have hlT : rotT.length = ts.length := rotl_length ts
    have hlzip : (rotP.zip rotT).length = path.length := by
      simp only [List.length_zip]
      omega
    have hlm : moves.length = path.length := by
      rw [hmoves]
      simp only [List.length_map, List.length_zip]
      omega
    have hA : moves.map (fun m => m.toPos) = path := by
      rw [hmoves, List.map_map]
      exact List.map_fst_zip _ _ (by omega)
    have hgetm : ∀ i (h : i < path.length) (ha : i < moves.length)
        (hb : i < rotP.length) (hc : i < rotT.length),
        moves[i] =
          { fromPos := rotP[i], toPos := path[i], tile := rotT[i] : MoveRec } := by
      intro i h ha hb hc
      simp only [hmoves, List.getElem_map, List.getElem_zip]
    have hrotPget : ∀ i (h : i < path.length) (hb : i < rotP.length)
        (hm : (i + 1) % path.length < path.length),
        rotP[i] = path[(i + 1) % path.length] :=
      fun i h hb hm => rotl_getElem path i h (by rw [rotl_length]; omega) hm
    have hrotTget : ∀ i (h : i < path.length) (hc : i < rotT.length)
        (hmt : (i + 1) % path.length < ts.length),
        rotT[i] = ts[(i + 1) % path.length] := by
      intro i h hc hmt
      have hmts : (i + 1) % ts.length < ts.length := by rw [hlts]; omega
      have := rotl_getElem ts i (by omega) (by rw [rotl_length]; omega) hmts
      simp only [hlts] at this
      exact this
    have hgfrom : ∀ i (h : i < path.length)
        (hm : (i + 1) % path.length < path.length)
        (hmt : (i + 1) % path.length < ts.length),
        g (path[(i + 1) % path.length]).x (path[(i + 1) % path.length]).y =
          some ts[(i + 1) % path.length] :=
      fun i h hm hmt => seqTiles_getElem hts _ hm hmt
    refine ⟨?_, ?_, ?_, ?_, ?_⟩
    · rw [hS]
      exact hA
    · rw [hS]
      have h1 : (path.zip (rotP.zip rotT)).map Prod.snd = rotP.zip rotT :=
        List.map_snd_zip _ _ (by omega)
      calc moves.map (fun m => m.fromPos)
          = (path.zip (rotP.zip rotT)).map (fun m => m.2.1) := by
            rw [hmoves, List.map_map]
            rfl
        _ = ((path.zip (rotP.zip rotT)).map Prod.snd).map Prod.fst := by
            rw [List.map_map]
            rfl
        _ = (rotP.zip rotT).map Prod.fst := by rw [h1]
        _ = rotP := List.map_fst_zip _ _ (by omega)
    · rw [hS]
      dsimp only
      intro mv hmv
      obtain ⟨i, hi, rfl⟩ := List.mem_iff_getElem.mp hmv
      have hip : i < path.length := by omega
      have hm1 : (i + 1) % path.length < path.length := Nat.mod_lt _ (by omega)
      simp only [hgetm i hip (by omega) (by rw [hlP]; omega) (by rw [hlT, hlts]; omega)]
      rw [hrotPget i hip (by rw [hlP]; omega) hm1,
        hrotTget i hip (by rw [hlT, hlts]; omega) (by rw [hlts]; omega)]
      exact hgfrom i hip hm1 (by rw [hlts]; omega)
    · intro i h
      rw [hS]
      simp only [List.get_eq_getElem]
      have him : i < moves.length := by omega
      have hm1 : (i + 1) % path.length < path.length := Nat.mod_lt _ (by omega)
      have hti : (path[i]).x = (moves[i]).toPos.x ∧
          (path[i]).y = (moves[i]).toPos.y := by
        simp only [hgetm i h him (by rw [hlP]; omega) (by rw [hlT, hlts]; omega)]
        exact ⟨trivial, trivial⟩
      rw [hti.1, hti.2]
      rw [foldl_setCell_getElem moves g (by rw [hA]; exact hnd) i him]
      simp only [hgetm i h him (by rw [hlP]; omega) (by rw [hlT, hlts]; omega)]
      rw [hrotTget i h (by rw [hlT, hlts]; omega) (by rw [hlts]; omega)]
      exact (hgfrom i h hm1 (by rw [hlts]; omega)).symm
    · intro q hq
      rw [hS]
      apply foldl_setCell_frame
      intro mv hmv heq
      apply hq
      rw [← hA]
      exact heq ▸ List.mem_map_of_mem _ hmv

/-- C8 amended-claim witness: shifting along the plain two-cell path on
the full 1×2 board returns one move per cell, with the expected targets
and sources. -/
theorem shiftAlongPath_rotates_witness :
    (shiftAlongPath cfg2x1 gTwo pathTwo).1.map (fun m => m.toPos) = pathTwo ∧
    (shiftAlongPath cfg2x1 gTwo pathTwo).1.map (fun m => m.fromPos) =
      pathTwo.drop 1 ++ pathTwo.take 1 :=
  ⟨((shiftAlongPath_rotates cfg2x1 gTwo pathTwo).2.2.2 (by decide) (by decide)
      (by decide) (by decide)).1,
   ((shiftAlongPath_rotates cfg2x1 gTwo pathTwo).2.2.2 (by decide) (by decide)
      (by decide) (by decide)).2.1⟩

end PipePuzzle
